import Mathlib

/-!
Shallow embedding of `src/pot/livetime.py` (SBND-RunCo).

Times (Python `datetime` values) are modelled as rationals `ℚ`: the code only
compares them, takes `max`/`min`, subtracts them and divides the results, so a
linear ordered field is a faithful idealisation.  `timedelta` differences and
POT floating-point sums become exact rational arithmetic.

Python strings are modelled as `List Char`; the source only splits the
response body on the single-character separators `'\n'` and `','`, and
`pySplit` below implements Python's `str.split(sep)` semantics for a
one-character separator.  The external IFDB service is modelled as a function
from a query window `(t0, t1)` to an `HTTPResponse` (status code plus body
text); `float(...)` parsing of a field is modelled by an abstract
`parseF : List Char → Option ℚ` (`none` = Python `ValueError`, the spec's
`ParseError`).  Python exceptions become `Except QueryError`.
-/

/-- Python's `s.split(sep)` for a single-character separator `sep`:
splits at every occurrence of `sep`, keeping empty pieces, and always
returns at least one (possibly empty) piece — `''.split(sep) == ['']`. -/
def pySplit (sep : Char) : List Char → List (List Char)
  | [] => [[]]
  | c :: rest =>
    let r := pySplit sep rest
    if c = sep then [] :: r
    else (c :: r.headD []) :: r.tail

/-- An HTTP response as seen by `query_pot_interval`: `requests.get(url)`
yields an object with a `status_code` and a body `text`. -/
structure HTTPResponse where
  status_code : Nat
  text : List Char
deriving DecidableEq, Repr

/-- The error taxonomy of the module: a non-200 HTTP status (the
`RuntimeError` raised at line 43, the spec's `RemoteQueryError`), a failed
`float(...)` conversion inside `np.array(..., dtype=float)` (the spec's
`ParseError`), and Python's `ZeroDivisionError` from the
`livetime / (t1 - t0).total_seconds()` division when the window has zero
length. -/
inductive QueryError where
  | remote (status : Nat)
  | parseFail
  | division
deriving DecidableEq, Repr

/-- The data lines of a response body: `response.text.split('\n')[1:]`
filtered by Python's truthiness test `if line` (non-empty string). -/
def dataLines (text : List Char) : List (List Char) :=
  ((pySplit '\n' text).drop 1).filter (fun line => line ≠ [])

/-- The last comma-separated field of a line: `line.split(',')[-1]`.
Python's `split(',')` always returns a non-empty list, so index `-1` is
total; `getLastD` with a dummy default is exact. -/
def lastField (line : List Char) : List Char :=
  (pySplit ',' line).getLastD []

/-- `np.array([...], dtype=float)` over the data lines: every extracted last
field must parse as a float, otherwise the conversion raises (`ParseError`). -/
def parseSamples (parseF : List Char → Option ℚ) (text : List Char) :
    Option (List ℚ) :=
  (dataLines text).mapM (fun line => parseF (lastField line))

/-- Embedding of `query_pot_interval` (lines 42–46), applied to the response
the service returned for the window.  A non-200 status raises `RuntimeError`
carrying the status code; otherwise the body is parsed and the pair
`(len(data), np.sum(data))` is returned. -/
def query_pot_interval (parseF : List Char → Option ℚ) (resp : HTTPResponse) :
    Except QueryError (Nat × ℚ) :=
  if resp.status_code ≠ 200 then
    .error (.remote resp.status_code)
  else
    match parseSamples parseF resp.text with
    | none => .error .parseFail
    | some data => .ok (data.length, data.sum)

/-- The clipped overlap window of lines 95–96: `s0 = max(t0, start)`,
`s1 = min(t1, end)`. -/
def clipWindow (t0 t1 s e : ℚ) : ℚ × ℚ :=
  (max t0 s, min t1 e)

/-- The six-tuple returned by `get_livetime_interval` (line 111), with
named fields in the order of the Python return statement. -/
structure LivetimeReport where
  livetime : ℚ
  livetime_fraction : ℚ
  delivered_spills : Nat
  collected_spills : Nat
  delivered_pot : ℚ
  collected_pot : ℚ
deriving DecidableEq, Repr

/-- One iteration of the `for start, end in zip(starts, ends)` loop
(lines 92–100), acting on the accumulator
`(overlap, collected_spills, collected_pot)`.  The interval is skipped
(`continue`) when `start > t1 or end < t0`; otherwise the clipped window is
computed, its length added to `overlap`, and a sub-query issued whose spill
count and POT are accumulated. -/
def livetimeStep (parseF : List Char → Option ℚ) (service : ℚ → ℚ → HTTPResponse)
    (t0 t1 : ℚ) (acc : ℚ × Nat × ℚ) (p : ℚ × ℚ) : Except QueryError (ℚ × Nat × ℚ) :=
  if p.1 > t1 ∨ p.2 < t0 then
    .ok acc
  else
    match query_pot_interval parseF
        (service (clipWindow t0 t1 p.1 p.2).1 (clipWindow t0 t1 p.1 p.2).2) with
    | .error e => .error e
    | .ok query =>
      .ok (acc.1 + ((clipWindow t0 t1 p.1 p.2).2 - (clipWindow t0 t1 p.1 p.2).1),
        acc.2.1 + query.1, acc.2.2 + query.2)

/-- The loop of lines 92–100 over the zipped interval list, propagating the
first raised exception. -/
def livetimeLoop (parseF : List Char → Option ℚ) (service : ℚ → ℚ → HTTPResponse)
    (t0 t1 : ℚ) : List (ℚ × ℚ) → (ℚ × Nat × ℚ) → Except QueryError (ℚ × Nat × ℚ)
  | [], acc => .ok acc
  | p :: rest, acc =>
    match livetimeStep parseF service t0 t1 acc p with
    | .error e => .error e
    | .ok acc1 => livetimeLoop parseF service t0 t1 rest acc1

/-- Embedding of `get_livetime_interval` (lines 85–111).  The loop runs over
`zip(starts, ends)` from the zero accumulator; then one full-window query
yields the delivered quantities; finally the livetime fraction divides by
the window duration — Python raises `ZeroDivisionError` when
`(t1 - t0).total_seconds()` is `0.0`, modelled by the `.division` error. -/
def get_livetime_interval (parseF : List Char → Option ℚ)
    (service : ℚ → ℚ → HTTPResponse) (t0 t1 : ℚ) (starts ends : List ℚ) :
    Except QueryError LivetimeReport :=
  match livetimeLoop parseF service t0 t1 (starts.zip ends) (0, 0, 0) with
  | .error e => .error e
  | .ok acc =>
    match query_pot_interval parseF (service t0 t1) with
    | .error e => .error e
    | .ok query =>
      if t1 - t0 = 0 then
        .error .division
      else
        .ok ⟨acc.1, acc.1 / (t1 - t0), query.1, acc.2.1, query.2, acc.2.2⟩

/-- A degenerate float parser (used only to instantiate closed statements):
every field parses to `0`. -/
def pfZero : List Char → Option ℚ := fun _ => some 0

/-- A service (used only to instantiate closed statements) that always
answers status 200 with an empty body: zero data samples. -/
def emptyService : ℚ → ℚ → HTTPResponse := fun _ _ => ⟨200, []⟩

deriving instance DecidableEq for Except

/-! ### Helper lemmas -/

/-- `zip` truncates to the shorter list: the surplus entries of the longer
list are never paired. -/
theorem zip_eq_zip_take (l1 l2 : List ℚ) :
    l1.zip l2 = (l1.take (min l1.length l2.length)).zip
      (l2.take (min l1.length l2.length)) := by
  induction l1 generalizing l2 with
  | nil => simp
  | cons a l1 ih =>
    cases l2 with
    | nil => simp
    | cons b l2 =>
      simp only [List.zip_cons_cons, List.length_cons]
      rw [Nat.succ_min_succ, List.take_succ_cons, List.take_succ_cons,
        List.zip_cons_cons, ih l2]

/-- `Option`-valued `mapM` succeeds and returns the pointwise values when
every element parses. -/
theorem mapM_eq_of_isSome {α : Type} (f : α → Option ℚ) :
    ∀ l : List α, (∀ x ∈ l, (f x).isSome) →
      l.mapM f = some (l.map (fun x => (f x).getD 0)) := by
  intro l
  induction l with
  | nil => intro _; rfl
  | cons a l ih =>
    intro h
    obtain ⟨v, hv⟩ := Option.isSome_iff_exists.mp (h a (List.mem_cons_self a l))
    rw [List.mapM_cons, hv, ih (fun x hx => h x (List.mem_cons_of_mem _ hx))]
    simp [hv]

/-- If every window's query succeeds, the accumulation loop succeeds. -/
theorem livetimeLoop_ok_of_forall (parseF : List Char → Option ℚ)
    (service : ℚ → ℚ → HTTPResponse) (t0 t1 : ℚ)
    (hq : ∀ a b, ∃ v, query_pot_interval parseF (service a b) = .ok v) :
    ∀ (l : List (ℚ × ℚ)) (acc : ℚ × Nat × ℚ),
      ∃ res, livetimeLoop parseF service t0 t1 l acc = .ok res := by
  intro l
  induction l with
  | nil => exact fun acc => ⟨acc, rfl⟩
  | cons p rest ih =>
    intro acc
    by_cases hp : p.1 > t1 ∨ p.2 < t0
    · obtain ⟨res, hres⟩ := ih acc
      have hstep : livetimeStep parseF service t0 t1 acc p = .ok acc := by
        simp [livetimeStep, hp]
      exact ⟨res, by simp [livetimeLoop, hstep, hres]⟩
    · obtain ⟨v, hv⟩ := hq (clipWindow t0 t1 p.1 p.2).1 (clipWindow t0 t1 p.1 p.2).2
      obtain ⟨res, hres⟩ := ih (acc.1 + ((clipWindow t0 t1 p.1 p.2).2 -
        (clipWindow t0 t1 p.1 p.2).1), acc.2.1 + v.1, acc.2.2 + v.2)
      have hstep : livetimeStep parseF service t0 t1 acc p =
          .ok (acc.1 + ((clipWindow t0 t1 p.1 p.2).2 - (clipWindow t0 t1 p.1 p.2).1),
            acc.2.1 + v.1, acc.2.2 + v.2) := by
        simp [livetimeStep, hp, hv]
      exact ⟨res, by simp [livetimeLoop, hstep, hres]⟩

/-! ### Claims -/

/-- Claim C1: in `get_livetime_interval`, a DAQ interval `(start, end)` is
skipped — leaving the accumulator unchanged and issuing no sub-query, for
every parser and service — exactly when `start > t1` or `end < t0`; the
test is inclusive at the boundaries, so an interval touching exactly at
`t0` or `t1` (i.e. with `start ≤ t1` and `end ≥ t0`) is not skipped: the
step then issues the sub-query on the clipped window and accumulates. -/
theorem daq_interval_skip_iff (t0 t1 s e : ℚ) (acc : ℚ × Nat × ℚ) :
    (s > t1 ∨ e < t0 → ∀ parseF service,
      livetimeStep parseF service t0 t1 acc (s, e) = .ok acc) ∧
    (s ≤ t1 → t0 ≤ e → ∀ parseF service,
      livetimeStep parseF service t0 t1 acc (s, e) =
        match query_pot_interval parseF
            (service (clipWindow t0 t1 s e).1 (clipWindow t0 t1 s e).2) with
        | .error err => .error err
        | .ok query =>
            .ok (acc.1 + ((clipWindow t0 t1 s e).2 - (clipWindow t0 t1 s e).1),
              acc.2.1 + query.1, acc.2.2 + query.2)) := by
  constructor
  · intro h parseF service
    simp only [livetimeStep]
    rw [if_pos h]
  · intro h1 h2 parseF service
    have hns : ¬((s, e).1 > t1 ∨ (s, e).2 < t0) := by
      push_neg
      exact ⟨h1, h2⟩
    simp only [livetimeStep]
    rw [if_neg hns]

/-- Closed instance of `daq_interval_skip_iff`: the interval `(11, 3)` lies
past `t1 = 10`, so the step returns the accumulator unchanged. -/
theorem daq_interval_skip_iff_witness :
    livetimeStep pfZero emptyService 0 10 (0, 0, 0) (11, 3) = .ok (0, 0, 0) :=
  (daq_interval_skip_iff 0 10 11 3 (0, 0, 0)).1 (Or.inl (by norm_num))
    pfZero emptyService

/-- Claim C2: for a query window with `t0 ≤ t1` and a DAQ interval with
`s ≤ e` passing the intersection test (`s ≤ t1` and `e ≥ t0`), the clipped
window `(s0, s1) = clipWindow t0 t1 s e` satisfies `t0 ≤ s0 ≤ s1 ≤ t1`,
`s ≤ s0` and `s1 ≤ e`. -/
theorem clipWindow_bounds (t0 t1 s e : ℚ) (h01 : t0 ≤ t1) (hse : s ≤ e)
    (h1 : s ≤ t1) (h2 : t0 ≤ e) :
    t0 ≤ (clipWindow t0 t1 s e).1 ∧
    (clipWindow t0 t1 s e).1 ≤ (clipWindow t0 t1 s e).2 ∧
    (clipWindow t0 t1 s e).2 ≤ t1 ∧
    s ≤ (clipWindow t0 t1 s e).1 ∧
    (clipWindow t0 t1 s e).2 ≤ e := by
  simp only [clipWindow]
  exact ⟨le_max_left _ _, le_min (max_le h01 h1) (max_le h2 hse),
    min_le_left _ _, le_max_right _ _, min_le_right _ _⟩

/-- Closed instance of `clipWindow_bounds` at `t0 = 0`, `t1 = 10`,
`(s, e) = (3, 5)`. -/
theorem clipWindow_bounds_witness :
    0 ≤ (clipWindow 0 10 3 5).1 ∧
    (clipWindow 0 10 3 5).1 ≤ (clipWindow 0 10 3 5).2 ∧
    (clipWindow 0 10 3 5).2 ≤ 10 ∧
    (3 : ℚ) ≤ (clipWindow 0 10 3 5).1 ∧
    (clipWindow 0 10 3 5).2 ≤ 5 :=
  clipWindow_bounds 0 10 3 5 (by norm_num) (by norm_num) (by norm_num)
    (by norm_num)

/-- Claim C3: with a zero-length query window (`t0 = t1`),
`get_livetime_interval` never returns a report (no silent `NaN`/infinity);
and whenever every query succeeds, it fails precisely with the division
error raised by `livetime / (t1 - t0).total_seconds()`. -/
theorem zero_window_division_error (parseF : List Char → Option ℚ)
    (service : ℚ → ℚ → HTTPResponse) (t0 t1 : ℚ) (starts ends : List ℚ)
    (h : t0 = t1) :
    (∀ r, get_livetime_interval parseF service t0 t1 starts ends ≠ .ok r) ∧
    ((∀ a b, ∃ v, query_pot_interval parseF (service a b) = .ok v) →
      get_livetime_interval parseF service t0 t1 starts ends =
        .error .division) := by
  have hz : t1 - t0 = 0 := by rw [h, sub_self]
  constructor
  · intro r
    unfold get_livetime_interval
    cases hl : livetimeLoop parseF service t0 t1 (starts.zip ends) (0, 0, 0) with
    | error e => simp
    | ok acc =>
      cases hquery : query_pot_interval parseF (service t0 t1) with
      | error e => simp [hquery]
      | ok query => simp [hquery, hz]
  · intro hq
    obtain ⟨acc, hl⟩ := livetimeLoop_ok_of_forall parseF service t0 t1 hq
      (starts.zip ends) (0, 0, 0)
    obtain ⟨v, hv⟩ := hq t0 t1
    unfold get_livetime_interval
    rw [hl, hv]
    simp [hz]

/-- Closed instance of `zero_window_division_error`: an always-succeeding
service with `t0 = t1 = 5` yields exactly the division error. -/
theorem zero_window_division_error_witness :
    get_livetime_interval pfZero emptyService 5 5 [1] [2] = .error .division :=
  (zero_window_division_error pfZero emptyService 5 5 [1] [2] rfl).2
    (fun _ _ => ⟨(0, 0), rfl⟩)

/-- Claim C4: a non-200 HTTP status makes `query_pot_interval` fail with the
remote error carrying exactly that status code (no value is returned, and
there is no retry: the single request's status decides the call); and if the
service answers the full-window query with a non-200 status, the enclosing
`get_livetime_interval` aggregation never returns a report. -/
theorem non_200_remote_error (parseF : List Char → Option ℚ)
    (service : ℚ → ℚ → HTTPResponse) (t0 t1 : ℚ) (starts ends : List ℚ)
    (resp : HTTPResponse) :
    (resp.status_code ≠ 200 →
      query_pot_interval parseF resp = .error (.remote resp.status_code)) ∧
    ((service t0 t1).status_code ≠ 200 →
      ∀ r, get_livetime_interval parseF service t0 t1 starts ends ≠ .ok r) := by
  constructor
  · intro h
    unfold query_pot_interval
    rw [if_pos h]
  · intro h r
    unfold get_livetime_interval
    cases hl : livetimeLoop parseF service t0 t1 (starts.zip ends) (0, 0, 0) with
    | error e => simp
    | ok acc =>
      have hquery : query_pot_interval parseF (service t0 t1) =
          .error (.remote (service t0 t1).status_code) := by
        unfold query_pot_interval
        rw [if_pos h]
      simp [hquery]

/-- Closed instance of `non_200_remote_error`: a service that always answers
HTTP 500 gives the remote error with status 500, and the aggregation over
one DAQ interval returns no report. -/
theorem non_200_remote_error_witness :
    query_pot_interval pfZero ⟨500, []⟩ = .error (.remote 500) ∧
    ∀ r, get_livetime_interval pfZero (fun _ _ => ⟨500, []⟩) 0 10 [1] [2] ≠
      .ok r :=
  ⟨(non_200_remote_error pfZero (fun _ _ => ⟨500, []⟩) 0 10 [1] [2]
      ⟨500, []⟩).1 (by decide),
   (non_200_remote_error pfZero (fun _ _ => ⟨500, []⟩) 0 10 [1] [2]
      ⟨500, []⟩).2 (by decide)⟩

/-- Claim C5: on a 200 response whose data fields all parse,
`query_pot_interval` returns the number of non-empty lines after the
discarded header line as the spill count, and the sum of the parsed last
comma-separated fields as the POT; with zero data lines this is `(0, 0)`. -/
theorem query_parse_counts_and_sums (parseF : List Char → Option ℚ)
    (resp : HTTPResponse) (h200 : resp.status_code = 200)
    (hall : ∀ line ∈ dataLines resp.text, (parseF (lastField line)).isSome) :
    query_pot_interval parseF resp =
      .ok ((dataLines resp.text).length,
        ((dataLines resp.text).map
          (fun line => (parseF (lastField line)).getD 0)).sum) := by
  unfold query_pot_interval
  rw [if_neg (by simp [h200])]
  unfold parseSamples
  rw [mapM_eq_of_isSome _ _ hall]
  simp

/-- Closed instance of `query_parse_counts_and_sums` on the body
`"h\n1,2\n"`: one data line whose last field parses to `0` under `pfZero`. -/
theorem query_parse_counts_and_sums_witness :
    query_pot_interval pfZero ⟨200, ['h', '\n', '1', ',', '2', '\n']⟩ =
      .ok ((dataLines ['h', '\n', '1', ',', '2', '\n']).length,
        ((dataLines ['h', '\n', '1', ',', '2', '\n']).map
          (fun line => (pfZero (lastField line)).getD 0)).sum) :=
  query_parse_counts_and_sums pfZero ⟨200, ['h', '\n', '1', ',', '2', '\n']⟩
    rfl (fun _ _ => rfl)

/-- Claim C7: with empty DAQ interval lists and `t0 < t1`, the report has
zero collected spills, zero collected POT, zero livetime and zero livetime
fraction, while the delivered quantities come from the single full-window
query over `(t0, t1)`. -/
theorem empty_daq_lists (parseF : List Char → Option ℚ)
    (service : ℚ → ℚ → HTTPResponse) (t0 t1 : ℚ) (ds : Nat) (dp : ℚ)
    (h01 : t0 < t1)
    (hq : query_pot_interval parseF (service t0 t1) = .ok (ds, dp)) :
    get_livetime_interval parseF service t0 t1 [] [] =
      .ok ⟨0, 0, ds, 0, dp, 0⟩ := by
  have hz : ¬(t1 - t0 = 0) := sub_ne_zero_of_ne h01.ne'
  unfold get_livetime_interval
  have hl : livetimeLoop parseF service t0 t1 (List.zip [] []) (0, 0, 0) =
      .ok (0, 0, 0) := rfl
  rw [hl, hq]
  simp [hz]

/-- Closed instance of `empty_daq_lists` with the empty-body service over
the window `(0, 10)`: the full-window query returns `(0, 0)`. -/
theorem empty_daq_lists_witness :
    get_livetime_interval pfZero emptyService 0 10 [] [] =
      .ok ⟨0, 0, 0, 0, 0, 0⟩ :=
  empty_daq_lists pfZero emptyService 0 10 0 0 (by norm_num) rfl

/-- Claim C9: `get_livetime_interval` performs no length check on `starts`
and `ends`: `zip` silently truncates to the shorter list, so the call is
indistinguishable from one on the first `min` of the two lengths of each
list, and the surplus entries of the longer list are ignored. -/
theorem unequal_lengths_truncate (parseF : List Char → Option ℚ)
    (service : ℚ → ℚ → HTTPResponse) (t0 t1 : ℚ) (starts ends : List ℚ) :
    get_livetime_interval parseF service t0 t1 starts ends =
      get_livetime_interval parseF service t0 t1
        (starts.take (min starts.length ends.length))
        (ends.take (min starts.length ends.length)) := by
  unfold get_livetime_interval
  rw [← zip_eq_zip_take]

/-- Claim C10: the code enforces no `start ≤ end` precondition on DAQ
intervals: a reversed interval `(5, 3)` inside the window `(0, 10)` passes
the intersection test and adds the negative duration `3 - 5 = -2` to the
overlap accumulator, so the returned report has negative `livetime` and
negative `livetime_fraction`. -/
theorem reversed_interval_negative_livetime :
    ∃ r, get_livetime_interval pfZero emptyService 0 10 [5] [3] = .ok r ∧
      r.livetime < 0 ∧ r.livetime_fraction < 0 := by
  refine ⟨⟨-2, -(1/5), 0, 0, 0, 0⟩, ?_, by norm_num, by norm_num⟩
  norm_num [get_livetime_interval, livetimeLoop, livetimeStep, query_pot_interval,
    parseSamples, List.mapM.loop, dataLines, lastField, pySplit, clipWindow,
    emptyService, pfZero]

/-! ### Disjoint-interval bound (for claim C6) -/

/-- Two closed intervals, given as pairs, do not overlap (they may touch at
an endpoint). -/
def disjointIv (p q : ℚ × ℚ) : Prop :=
  p.2 ≤ q.1 ∨ q.2 ≤ p.1

/-- A non-empty list of pairs has an element of minimal first component. -/
theorem exists_min_fst : ∀ (a : ℚ × ℚ) (l : List (ℚ × ℚ)),
    ∃ p, p ∈ a :: l ∧ ∀ q ∈ a :: l, p.1 ≤ q.1 := by
  intro a l
  induction l generalizing a with
  | nil =>
    refine ⟨a, List.mem_cons_self a [], ?_⟩
    intro q hq
    rw [List.mem_singleton] at hq
    rw [hq]
  | cons b m ih =>
    obtain ⟨p, hp, hmin⟩ := ih b
    by_cases hap : a.1 ≤ p.1
    · refine ⟨a, List.mem_cons_self a _, ?_⟩
      intro q hq
      rcases List.mem_cons.mp hq with h1 | h1
      · rw [h1]
      · exact le_trans hap (hmin q h1)
    · refine ⟨p, List.mem_cons_of_mem a hp, ?_⟩
      intro q hq
      rcases List.mem_cons.mp hq with h1 | h1
      · rw [h1]
        exact le_of_not_le hap
      · exact hmin q h1

/-- Dropping zero-length pairs (those with `p.1 = p.2`) does not change the
sum of lengths. -/
theorem sum_lengths_filter (l : List (ℚ × ℚ)) (h : ∀ p ∈ l, p.1 ≤ p.2) :
    ((l.filter (fun p => decide (p.1 < p.2))).map (fun r => r.2 - r.1)).sum =
      (l.map (fun r => r.2 - r.1)).sum := by
  induction l with
  | nil => rfl
  | cons a l ih =>
    have ha := h a (List.mem_cons_self a l)
    have ihl := ih (fun p hp => h p (List.mem_cons_of_mem _ hp))
    by_cases hl : a.1 < a.2
    · simp [List.filter_cons, hl, ihl]
    · have hz : a.2 - a.1 = 0 := by
        have := le_antisymm ha (le_of_not_lt hl)
        rw [this, sub_self]
      simp [List.filter_cons, hl, ihl, hz]

/-- Any member of a list can be brought to the front by a permutation
(an instance-free variant of `perm_cons_erase`). -/
theorem exists_perm_cons (p : ℚ × ℚ) :
    ∀ (l : List (ℚ × ℚ)), p ∈ l →
      ∃ m, l.Perm (p :: m) ∧ m.length + 1 = l.length := by
  intro l
  induction l with
  | nil => intro h; cases h
  | cons a t ih =>
    intro hp
    rcases List.mem_cons.mp hp with h1 | h1
    · subst h1
      exact ⟨t, List.Perm.refl _, rfl⟩
    · obtain ⟨m, hm, hlen⟩ := ih h1
      refine ⟨a :: m, ?_, by simp [← hlen]⟩
      exact (hm.cons a).trans (List.Perm.swap p a m)

/-- Pairwise non-overlapping intervals of positive length inside the window
`[t0, t1]` have total length at most the window length. -/
theorem sum_disjoint_lengths_le (t1 : ℚ) :
    ∀ (n : ℕ) (l : List (ℚ × ℚ)) (t0 : ℚ), l.length ≤ n → t0 ≤ t1 →
      (∀ p ∈ l, t0 ≤ p.1 ∧ p.1 < p.2 ∧ p.2 ≤ t1) →
      l.Pairwise disjointIv →
      (l.map (fun r => r.2 - r.1)).sum ≤ t1 - t0 := by
  intro n
  induction n with
  | zero =>
    intro l t0 hlen h01 _ _
    have hnil : l = [] := List.length_eq_zero.mp (Nat.le_zero.mp hlen)
    subst hnil
    simpa using sub_nonneg.mpr h01
  | succ n ih =>
    intro l t0 hlen h01 hw hpw
    cases l with
    | nil => simpa using sub_nonneg.mpr h01
    | cons a m =>
      obtain ⟨p, hp, hmin⟩ := exists_min_fst a m
      obtain ⟨rest, hperm, hlenr⟩ := exists_perm_cons p (a :: m) hp
      have hsym : ∀ {x y : ℚ × ℚ}, disjointIv x y → disjointIv y x :=
        fun h => h.symm
      have hpw2 : (p :: rest).Pairwise disjointIv :=
        (List.Perm.pairwise_iff hsym hperm).mp hpw
      rw [List.pairwise_cons] at hpw2
      obtain ⟨hdisj, hpwrest⟩ := hpw2
      have hmemr : ∀ q ∈ rest, q ∈ a :: m := by
        intro q hqmem
        exact hperm.mem_iff.mpr (List.mem_cons_of_mem p hqmem)
      have hq : ∀ q ∈ rest, p.2 ≤ q.1 := by
        intro q hqmem
        have hqmem2 : q ∈ a :: m := hmemr q hqmem
        rcases hdisj q hqmem with h1 | h1
        · exact h1
        · exfalso
          have h2 := hmin q hqmem2
          have h3 := (hw q hqmem2).2.1
          have h4 := (hw p hp).2.1
          linarith
      have hw2 : ∀ q ∈ rest, p.2 ≤ q.1 ∧ q.1 < q.2 ∧ q.2 ≤ t1 := by
        intro q hqmem
        have hqmem2 : q ∈ a :: m := hmemr q hqmem
        exact ⟨hq q hqmem, (hw q hqmem2).2.1, (hw q hqmem2).2.2⟩
      have hlen2 : rest.length ≤ n := by
        simp only [List.length_cons] at hlenr hlen
        omega
      have hsum := ih rest p.2 hlen2 (hw p hp).2.2 hw2 hpwrest
      have hperm_sum : ((a :: m).map (fun r => r.2 - r.1)).sum =
          ((p :: rest).map (fun r => r.2 - r.1)).sum :=
        (List.Perm.map _ hperm).sum_eq
      rw [hperm_sum]
      simp only [List.map_cons, List.sum_cons]
      have hpt0 : t0 ≤ p.1 := (hw p hp).1
      linarith

/-- When every DAQ interval lies inside the window, no interval is skipped,
clipping is the identity, and a successful loop accumulates exactly the sum
of the interval lengths into the overlap component. -/
theorem livetimeLoop_overlap (parseF : List Char → Option ℚ)
    (service : ℚ → ℚ → HTTPResponse) (t0 t1 : ℚ) :
    ∀ (l : List (ℚ × ℚ)) (acc res : ℚ × Nat × ℚ),
      (∀ p ∈ l, t0 ≤ p.1 ∧ p.1 ≤ p.2 ∧ p.2 ≤ t1) →
      livetimeLoop parseF service t0 t1 l acc = .ok res →
      res.1 = acc.1 + (l.map (fun r => r.2 - r.1)).sum := by
  intro l
  induction l with
  | nil =>
    intro acc res _ h
    simp only [livetimeLoop] at h
    cases h
    simp
  | cons p m ih =>
    intro acc res hw hloop
    have hw1 := hw p (List.mem_cons_self p m)
    have hskip : ¬(p.1 > t1 ∨ p.2 < t0) := by
      push_neg
      constructor
      · linarith [hw1.2.1, hw1.2.2]
      · linarith [hw1.1, hw1.2.1]
    have hclip1 : (clipWindow t0 t1 p.1 p.2).1 = p.1 := max_eq_right hw1.1
    have hclip2 : (clipWindow t0 t1 p.1 p.2).2 = p.2 := min_eq_right hw1.2.2
    simp only [livetimeLoop] at hloop
    cases hstep : livetimeStep parseF service t0 t1 acc p with
    | error e =>
      rw [hstep] at hloop
      simp at hloop
    | ok acc1 =>
      rw [hstep] at hloop
      rw [livetimeStep, if_neg hskip] at hstep
      cases hquery : query_pot_interval parseF
          (service (clipWindow t0 t1 p.1 p.2).1 (clipWindow t0 t1 p.1 p.2).2) with
      | error e =>
        rw [hquery] at hstep
        simp at hstep
      | ok v =>
        rw [hquery] at hstep
        simp only [Except.ok.injEq] at hstep
        subst hstep
        have hloop2 : livetimeLoop parseF service t0 t1 m
            (acc.1 + ((clipWindow t0 t1 p.1 p.2).2 - (clipWindow t0 t1 p.1 p.2).1),
              acc.2.1 + v.1, acc.2.2 + v.2) = .ok res := hloop
        have hm := ih _ res (fun q hqm => hw q (List.mem_cons_of_mem _ hqm)) hloop2
        rw [hm]
        dsimp only
        simp only [List.map_cons, List.sum_cons, hclip1, hclip2]
        ring

/-- Claim C6: for a window with `t0 < t1`, if every DAQ interval is a subset
of `[t0, t1]` (i.e. `t0 ≤ start ≤ end ≤ t1`) and the intervals are pairwise
non-overlapping, then whenever `get_livetime_interval` returns a report its
`livetime_fraction` lies in `[0, 1]`. -/
theorem livetime_fraction_unit_interval (parseF : List Char → Option ℚ)
    (service : ℚ → ℚ → HTTPResponse) (t0 t1 : ℚ) (starts ends : List ℚ)
    (r : LivetimeReport) (h01 : t0 < t1)
    (hw : ∀ p ∈ starts.zip ends, t0 ≤ p.1 ∧ p.1 ≤ p.2 ∧ p.2 ≤ t1)
    (hdisj : (starts.zip ends).Pairwise disjointIv)
    (hok : get_livetime_interval parseF service t0 t1 starts ends = .ok r) :
    0 ≤ r.livetime_fraction ∧ r.livetime_fraction ≤ 1 := by
  have ht : (0 : ℚ) < t1 - t0 := sub_pos.mpr h01
  unfold get_livetime_interval at hok
  cases hl : livetimeLoop parseF service t0 t1 (starts.zip ends) (0, 0, 0) with
  | error e =>
    rw [hl] at hok
    simp at hok
  | ok acc =>
    rw [hl] at hok
    cases hquery : query_pot_interval parseF (service t0 t1) with
    | error e =>
      rw [hquery] at hok
      simp at hok
    | ok query =>
      rw [hquery] at hok
      have hok2 : (if t1 - t0 = 0 then
            (Except.error QueryError.division : Except QueryError LivetimeReport)
          else
            .ok ⟨acc.1, acc.1 / (t1 - t0), query.1, acc.2.1, query.2, acc.2.2⟩) =
          .ok r := hok
      rw [if_neg (ne_of_gt ht)] at hok2
      simp only [Except.ok.injEq] at hok2
      subst hok2
      have hov : acc.1 = ((starts.zip ends).map (fun q => q.2 - q.1)).sum := by
        have := livetimeLoop_overlap parseF service t0 t1 (starts.zip ends)
          (0, 0, 0) acc hw hl
        simpa using this
      have hnonneg : 0 ≤ acc.1 := by
        rw [hov]
        apply List.sum_nonneg
        intro x hx
        obtain ⟨q, hqm, rfl⟩ := List.mem_map.mp hx
        exact sub_nonneg.mpr (hw q hqm).2.1
      have hupper : acc.1 ≤ t1 - t0 := by
        rw [hov, ← sum_lengths_filter (starts.zip ends) (fun p hp => (hw p hp).2.1)]
        apply sum_disjoint_lengths_le t1
          ((starts.zip ends).filter (fun p => decide (p.1 < p.2))).length _ t0
          le_rfl h01.le
        · intro q hqm
          rw [List.mem_filter, decide_eq_true_eq] at hqm
          exact ⟨(hw q hqm.1).1, hqm.2, (hw q hqm.1).2.2⟩
        · exact hdisj.filter _
      constructor
      · exact div_nonneg hnonneg ht.le
      · exact (div_le_one ht).mpr hupper

/-- Closed instance of `livetime_fraction_unit_interval`: one DAQ interval
`(2, 4)` inside the window `(0, 10)` gives livetime fraction `1/5 ∈ [0,1]`. -/
theorem livetime_fraction_unit_interval_witness :
    0 ≤ (⟨2, 1/5, 0, 0, 0, 0⟩ : LivetimeReport).livetime_fraction ∧
    (⟨2, 1/5, 0, 0, 0, 0⟩ : LivetimeReport).livetime_fraction ≤ 1 :=
  livetime_fraction_unit_interval pfZero emptyService 0 10 [2] [4]
    ⟨2, 1/5, 0, 0, 0, 0⟩ (by norm_num)
    (by
      intro p hp
      simp only [List.zip_cons_cons, List.zip_nil_right, List.mem_singleton] at hp
      subst hp
      norm_num)
    (by
      simp only [List.zip_cons_cons, List.zip_nil_right]
      exact List.pairwise_singleton _ _)
    (by
      norm_num [get_livetime_interval, livetimeLoop, livetimeStep,
        query_pot_interval, parseSamples, List.mapM.loop, dataLines, lastField,
        pySplit, clipWindow, emptyService, pfZero])

/-! ### Order invariance (claim C8) -/

/-- The intersection test of line 93, as a Boolean: the interval is
processed (not skipped) when `¬(start > t1 ∨ end < t0)`. -/
def passes (t0 t1 : ℚ) (p : ℚ × ℚ) : Bool :=
  decide (¬(p.1 > t1 ∨ p.2 < t0))

/-- The sub-query issued for a processed DAQ interval: the query over its
clipped window. -/
def windowQuery (parseF : List Char → Option ℚ)
    (service : ℚ → ℚ → HTTPResponse) (t0 t1 : ℚ) (p : ℚ × ℚ) :
    Except QueryError (Nat × ℚ) :=
  query_pot_interval parseF
    (service (clipWindow t0 t1 p.1 p.2).1 (clipWindow t0 t1 p.1 p.2).2)

/-- The length of a processed interval's clipped window. -/
def overlapLen (t0 t1 : ℚ) (p : ℚ × ℚ) : ℚ :=
  (clipWindow t0 t1 p.1 p.2).2 - (clipWindow t0 t1 p.1 p.2).1

/-- The spill count a processed interval's sub-query contributes (`0` if
the query fails, in which case the loop aborts anyway). -/
def qSpills (parseF : List Char → Option ℚ)
    (service : ℚ → ℚ → HTTPResponse) (t0 t1 : ℚ) (p : ℚ × ℚ) : Nat :=
  match windowQuery parseF service t0 t1 p with
  | .ok v => v.1
  | .error _ => 0

/-- The POT a processed interval's sub-query contributes (`0` if the query
fails, in which case the loop aborts anyway). -/
def qPot (parseF : List Char → Option ℚ)
    (service : ℚ → ℚ → HTTPResponse) (t0 t1 : ℚ) (p : ℚ × ℚ) : ℚ :=
  match windowQuery parseF service t0 t1 p with
  | .ok v => v.2
  | .error _ => 0

/-- If the loop succeeds, every processed interval's sub-query succeeded. -/
theorem livetimeLoop_ok_queries (parseF : List Char → Option ℚ)
    (service : ℚ → ℚ → HTTPResponse) (t0 t1 : ℚ) :
    ∀ (l : List (ℚ × ℚ)) (acc res : ℚ × Nat × ℚ),
      livetimeLoop parseF service t0 t1 l acc = .ok res →
      ∀ p ∈ l, passes t0 t1 p = true →
        ∃ v, windowQuery parseF service t0 t1 p = .ok v := by
  intro l
  induction l with
  | nil =>
    intro acc res _ p hp
    cases hp
  | cons a m ih =>
    intro acc res hloop p hp hpass
    simp only [livetimeLoop] at hloop
    cases hstep : livetimeStep parseF service t0 t1 acc a with
    | error e =>
      rw [hstep] at hloop
      simp at hloop
    | ok acc1 =>
      rw [hstep] at hloop
      have hloop2 : livetimeLoop parseF service t0 t1 m acc1 = .ok res := hloop
      rcases List.mem_cons.mp hp with h1 | h1
      · subst h1
        have hnp : ¬(p.1 > t1 ∨ p.2 < t0) := of_decide_eq_true hpass
        rw [livetimeStep, if_neg hnp] at hstep
        cases hquery : windowQuery parseF service t0 t1 p with
        | error e =>
          rw [windowQuery] at hquery
          rw [hquery] at hstep
          simp at hstep
        | ok v => exact ⟨v, rfl⟩
      · exact ih acc1 res hloop2 p h1 hpass

/-- If every processed interval's sub-query succeeds, the loop succeeds and
its result is the accumulator plus, over the processed intervals, the sums
of clipped lengths, spill counts, and POT values — an order-insensitive
description. -/
theorem livetimeLoop_eq_sums (parseF : List Char → Option ℚ)
    (service : ℚ → ℚ → HTTPResponse) (t0 t1 : ℚ) :
    ∀ (l : List (ℚ × ℚ)) (acc : ℚ × Nat × ℚ),
      (∀ p ∈ l, passes t0 t1 p = true →
        ∃ v, windowQuery parseF service t0 t1 p = .ok v) →
      livetimeLoop parseF service t0 t1 l acc =
        .ok (acc.1 + ((l.filter (passes t0 t1)).map (overlapLen t0 t1)).sum,
          acc.2.1 + ((l.filter (passes t0 t1)).map
            (qSpills parseF service t0 t1)).sum,
          acc.2.2 + ((l.filter (passes t0 t1)).map
            (qPot parseF service t0 t1)).sum) := by
  intro l
  induction l with
  | nil =>
    intro acc _
    simp [livetimeLoop]
  | cons a m ih =>
    intro acc hq
    have ihm := fun acc2 =>
      ih acc2 (fun p hp hpass => hq p (List.mem_cons_of_mem _ hp) hpass)
    by_cases hpass : passes t0 t1 a = true
    · obtain ⟨v, hv⟩ := hq a (List.mem_cons_self a m) hpass
      have hnp : ¬(a.1 > t1 ∨ a.2 < t0) := of_decide_eq_true hpass
      have hstep : livetimeStep parseF service t0 t1 acc a =
          .ok (acc.1 + overlapLen t0 t1 a, acc.2.1 + v.1, acc.2.2 + v.2) := by
        rw [livetimeStep, if_neg hnp]
        rw [windowQuery] at hv
        rw [hv]
        rfl
      have hqs : qSpills parseF service t0 t1 a = v.1 := by
        rw [qSpills, hv]
      have hqp : qPot parseF service t0 t1 a = v.2 := by
        rw [qPot, hv]
      simp only [livetimeLoop, hstep,
        ihm (acc.1 + overlapLen t0 t1 a, acc.2.1 + v.1, acc.2.2 + v.2),
        List.filter_cons_of_pos hpass, List.map_cons, List.sum_cons,
        Except.ok.injEq, Prod.mk.injEq, hqs, hqp]
      refine ⟨by ring, by omega, by ring⟩
    · have hp2 : a.1 > t1 ∨ a.2 < t0 := by
        by_contra hcon
        exact hpass (decide_eq_true hcon)
      have hstep : livetimeStep parseF service t0 t1 acc a = .ok acc := by
        rw [livetimeStep, if_pos hp2]
      simp only [livetimeLoop, hstep, ihm acc, List.filter_cons_of_neg hpass]

/-- Claim C8: permuting the index-aligned DAQ interval pairs does not
affect the result of `get_livetime_interval` (external responses held fixed
per clipped window): any report returned for one order is returned for
every permutation of the pairs (exact equality; the floating-point sums of
the source are modelled as exact sums, where accumulation is commutative
and associative). -/
theorem daq_order_invariant (parseF : List Char → Option ℚ)
    (service : ℚ → ℚ → HTTPResponse) (t0 t1 : ℚ) (s1 e1 s2 e2 : List ℚ)
    (r : LivetimeReport) (hperm : (s1.zip e1).Perm (s2.zip e2))
    (hok : get_livetime_interval parseF service t0 t1 s1 e1 = .ok r) :
    get_livetime_interval parseF service t0 t1 s2 e2 = .ok r := by
  unfold get_livetime_interval at hok ⊢
  cases hl : livetimeLoop parseF service t0 t1 (s1.zip e1) (0, 0, 0) with
  | error e =>
    rw [hl] at hok
    simp at hok
  | ok acc =>
    rw [hl] at hok
    have hq := livetimeLoop_ok_queries parseF service t0 t1 (s1.zip e1)
      (0, 0, 0) acc hl
    have hq2 : ∀ p ∈ s2.zip e2, passes t0 t1 p = true →
        ∃ v, windowQuery parseF service t0 t1 p = .ok v :=
      fun p hp hpass => hq p (hperm.mem_iff.mpr hp) hpass
    have h1 := livetimeLoop_eq_sums parseF service t0 t1 (s1.zip e1) (0, 0, 0) hq
    have h2 := livetimeLoop_eq_sums parseF service t0 t1 (s2.zip e2) (0, 0, 0) hq2
    rw [h1] at hl
    have hfil : ((s1.zip e1).filter (passes t0 t1)).Perm
        ((s2.zip e2).filter (passes t0 t1)) := hperm.filter _
    have h2acc : livetimeLoop parseF service t0 t1 (s2.zip e2) (0, 0, 0) =
        .ok acc := by
      rw [h2, ← Except.ok.inj hl]
      rw [(hfil.map (overlapLen t0 t1)).sum_eq.symm,
        (hfil.map (qSpills parseF service t0 t1)).sum_eq.symm,
        (hfil.map (qPot parseF service t0 t1)).sum_eq.symm]
    rw [h2acc]
    exact hok

/-- Closed instance of `daq_order_invariant`: swapping the two DAQ
intervals `(1, 2)` and `(5, 6)` inside the window `(0, 10)` returns the
same report. -/
theorem daq_order_invariant_witness :
    get_livetime_interval pfZero emptyService 0 10 [5, 1] [6, 2] =
      .ok ⟨2, 1/5, 0, 0, 0, 0⟩ :=
  daq_order_invariant pfZero emptyService 0 10 [1, 5] [2, 6] [5, 1] [6, 2]
    ⟨2, 1/5, 0, 0, 0, 0⟩ (List.Perm.swap (5, 6) (1, 2) [])
    (by
      norm_num [get_livetime_interval, livetimeLoop, livetimeStep,
        query_pot_interval, parseSamples, List.mapM.loop, dataLines, lastField,
        pySplit, clipWindow, emptyService, pfZero])
